import Mathlib

/-!
Verification of the SAFHER / SafeRoute repository core.

The repository ships a documentation-heavy description of a FastAPI backend
(`backend/server.py`, not part of the checked-in sources) plus a Next.js
frontend.  The backend components — safety-score aggregation, route
selection, presence registry, proximity matching and emergency broadcast —
are modelled here from the specification, faithful to its words; the
frontend behaviour (Quick SOS identifiers, companions-panel constants) is
translated directly from the checked-in component sources.

All scores and coordinates are modelled as rationals, mirroring the exact
decimal arithmetic the formulas prescribe.
-/

namespace SafeRoute

/-- Clamp a rational into the interval from lo to hi. -/
def clampQ (lo hi x : ℚ) : ℚ := max lo (min hi x)

/-- Round a rational to one decimal place (half up), as the aggregator
rounds the final safety score. -/
def roundTo1 (x : ℚ) : ℚ := ((⌊10 * x + 1/2⌋ : ℤ) : ℚ) / 10

/-- Geographic location, lat/lon pair. -/
structure Location where
  lat : ℚ
  lon : ℚ
deriving DecidableEq

/-- Modelled from the spec: a route candidate produced by the routing
provider (geometry, distance, duration; read-only once created).  The
backend source defining it, `backend/server.py`, is not among the
checked-in files. -/
structure RouteCandidate where
  geometry : List Location
  distance_km : ℚ
  duration_min : ℚ
  provider_route_id : ℕ
deriving DecidableEq

/-- Route type tag attached to the selected route. -/
inductive RouteType
  | safest
  | shortest
  | alternative
deriving DecidableEq

/-- Modelled from the spec: a route candidate together with its component
scores and the aggregated safety score. -/
structure ScoredRoute where
  candidate : RouteCandidate
  traffic_score : ℚ
  cctv_score : ℚ
  crowd_score : ℚ
  safety_score : ℚ
  route_type : RouteType
deriving DecidableEq

/-- Modelled from the spec: traffic provider mapping,
clamp [0,100] of 100 * current_speed / free_flow_speed. -/
def traffic_score_of (current_speed free_flow_speed : ℚ) : ℚ :=
  clampQ 0 100 (100 * current_speed / free_flow_speed)

/-- Modelled from the spec: camera-coverage score,
clamp [0,100] of 100 * camera_count / 5. -/
def cctv_score_of (camera_count : ℕ) : ℚ :=
  clampQ 0 100 (100 * camera_count / 5)

/-- Modelled from the spec: infrastructure-density score,
clamp [0,100] of 100 * facility_count / 3. -/
def crowd_score_of (facility_count : ℕ) : ℚ :=
  clampQ 0 100 (100 * facility_count / 3)

/-- Modelled from the spec: the weighted safety score,
0.4 * traffic + 0.3 * cctv + 0.3 * crowd, rounded to one decimal. -/
def weighted_safety (t c cr : ℚ) : ℚ :=
  roundTo1 (4/10 * t + 3/10 * c + 3/10 * cr)

/-- Neutral fallback score substituted when the traffic provider fails. -/
def traffic_fallback : ℚ := 75

/-- Neutral fallback score substituted when the camera provider fails. -/
def cctv_fallback : ℚ := 50

/-- Neutral fallback score substituted when the infrastructure provider
fails. -/
def crowd_fallback : ℚ := 50

/-- Outcome of the three per-candidate provider calls: a failed or
timed-out call is none, a successful one carries its raw result. -/
structure ProviderResults where
  traffic : Option ℚ
  cameras : Option ℕ
  facilities : Option ℕ

/-- Modelled from the spec: the safety-score aggregator.  Each provider
result is mapped to a 0-100 score on success and replaced by its fixed
neutral fallback on failure; the weighted safety score is then computed.
Every input path produces a complete scored route.  The backend source,
`backend/server.py`, is not among the checked-in files. -/
def aggregate (c : RouteCandidate) (pr : ProviderResults) : ScoredRoute :=
  let t := pr.traffic.getD traffic_fallback
  let cv := (pr.cameras.map cctv_score_of).getD cctv_fallback
  let cw := (pr.facilities.map crowd_score_of).getD crowd_fallback
  { candidate := c
    traffic_score := t
    cctv_score := cv
    crowd_score := cw
    safety_score := weighted_safety t cv cw
    route_type := RouteType.safest }

/- ### Basic bounds on the rounded weighted score -/

theorem roundTo1_nonneg {x : ℚ} (hx : 0 ≤ x) : 0 ≤ roundTo1 x := by
  unfold roundTo1
  have h : (0 : ℤ) ≤ ⌊10 * x + 1/2⌋ := Int.le_floor.mpr (by push_cast; linarith)
  have h2 : (0 : ℚ) ≤ ((⌊10 * x + 1/2⌋ : ℤ) : ℚ) := by exact_mod_cast h
  positivity

theorem roundTo1_le_100 {x : ℚ} (hx : x ≤ 100) : roundTo1 x ≤ 100 := by
  unfold roundTo1
  have h : ⌊10 * x + 1/2⌋ < 1001 := Int.floor_lt.mpr (by push_cast; linarith)
  have h2 : ((⌊10 * x + 1/2⌋ : ℤ) : ℚ) ≤ 1000 := by exact_mod_cast Int.lt_add_one_iff.mp h
  rw [div_le_iff₀ (by norm_num : (0:ℚ) < 10)]
  linarith

/-- Claim C1: for every route candidate and every triple of component
scores, the aggregated safety score equals 0.4 * traffic + 0.3 * cctv +
0.3 * crowd rounded to one decimal, and lies in [0,100] whenever each
component lies in [0,100]. -/
theorem safety_score_aggregation (t c cr : ℚ)
    (ht0 : 0 ≤ t) (ht1 : t ≤ 100) (hc0 : 0 ≤ c) (hc1 : c ≤ 100)
    (hr0 : 0 ≤ cr) (hr1 : cr ≤ 100) :
    (∀ (cand : RouteCandidate) (pr : ProviderResults),
        (aggregate cand pr).safety_score =
          roundTo1 (4/10 * (aggregate cand pr).traffic_score +
            3/10 * (aggregate cand pr).cctv_score +
            3/10 * (aggregate cand pr).crowd_score))
    ∧ weighted_safety t c cr = roundTo1 (4/10 * t + 3/10 * c + 3/10 * cr)
    ∧ 0 ≤ weighted_safety t c cr ∧ weighted_safety t c cr ≤ 100 := by
  refine ⟨fun cand pr => rfl, rfl, ?_, ?_⟩
  · exact roundTo1_nonneg (by linarith)
  · exact roundTo1_le_100 (by linarith)

theorem safety_score_aggregation_witness :
    weighted_safety 80 50 50 = roundTo1 (4/10 * 80 + 3/10 * 50 + 3/10 * 50)
    ∧ 0 ≤ weighted_safety 80 50 50 ∧ weighted_safety 80 50 50 ≤ 100 :=
  (safety_score_aggregation 80 50 50 (by norm_num) (by norm_num) (by norm_num)
    (by norm_num) (by norm_num) (by norm_num)).2

/-- Claim C2: each successful camera count n yields cctv score
clamp(100 * n / 5, 0, 100) — 20 points per camera, saturating at five
cameras — and each successful facility count yields crowd score
clamp(100 * m / 3, 0, 100), saturating at three facilities. -/
theorem component_scores (cam fac cam1 cam2 fac1 fac2 : ℕ)
    (h1 : cam1 ≤ 5) (h2 : 5 ≤ cam2) (h3 : fac1 ≤ 3) (h4 : 3 ≤ fac2) :
    cctv_score_of cam = clampQ 0 100 (100 * cam / 5)
    ∧ crowd_score_of fac = clampQ 0 100 (100 * fac / 3)
    ∧ cctv_score_of cam1 = 20 * cam1
    ∧ cctv_score_of cam2 = 100
    ∧ crowd_score_of fac1 = 100 * fac1 / 3
    ∧ crowd_score_of fac2 = 100 := by
  refine ⟨rfl, rfl, ?_, ?_, ?_, ?_⟩
  · have hc : ((cam1 : ℚ)) ≤ 5 := by exact_mod_cast h1
    have heq : (100 : ℚ) * cam1 / 5 = 20 * cam1 := by ring
    unfold cctv_score_of clampQ
    rw [heq, min_eq_right (by linarith), max_eq_right (by positivity)]
  · have hc : (5 : ℚ) ≤ (cam2 : ℚ) := by exact_mod_cast h2
    have hge : (100 : ℚ) ≤ 100 * cam2 / 5 := by
      rw [le_div_iff₀ (by norm_num : (0:ℚ) < 5)]; linarith
    unfold cctv_score_of clampQ
    rw [min_eq_left hge, max_eq_right (by norm_num)]
  · have hc : ((fac1 : ℚ)) ≤ 3 := by exact_mod_cast h3
    have hle : (100 : ℚ) * fac1 / 3 ≤ 100 := by
      rw [div_le_iff₀ (by norm_num : (0:ℚ) < 3)]; linarith
    unfold crowd_score_of clampQ
    rw [min_eq_right hle, max_eq_right (by positivity)]
  · have hc : (3 : ℚ) ≤ (fac2 : ℚ) := by exact_mod_cast h4
    have hge : (100 : ℚ) ≤ 100 * fac2 / 3 := by
      rw [le_div_iff₀ (by norm_num : (0:ℚ) < 3)]; linarith
    unfold crowd_score_of clampQ
    rw [min_eq_left hge, max_eq_right (by norm_num)]

theorem component_scores_witness :
    cctv_score_of 2 = 20 * 2 ∧ cctv_score_of 7 = 100
    ∧ crowd_score_of 1 = 100 * 1 / 3 ∧ crowd_score_of 5 = 100 := by
  have h := component_scores 0 0 2 7 1 5 (by norm_num) (by norm_num)
    (by norm_num) (by norm_num)
  exact ⟨by rw [h.2.2.1]; norm_num, h.2.2.2.1, by rw [h.2.2.2.2.1]; norm_num,
    h.2.2.2.2.2⟩

/-- Claim C3: on a failed or timed-out provider call the aggregator
substitutes the fixed neutral fallback for exactly that provider
(traffic 75.0, cctv 50.0, crowd 50.0), still computes the weighted
safety score from the remaining values, and on every input path returns
a complete scored route. -/
theorem provider_fallbacks (c : RouteCandidate) (n m : ℕ) (t : ℚ) :
    (aggregate c { traffic := none, cameras := some n, facilities := some m }).traffic_score = 75
    ∧ (aggregate c { traffic := some t, cameras := none, facilities := some m }).cctv_score = 50
    ∧ (aggregate c { traffic := some t, cameras := some n, facilities := none }).crowd_score = 50
    ∧ (aggregate c { traffic := none, cameras := some n, facilities := some m }).cctv_score
        = cctv_score_of n
    ∧ (aggregate c { traffic := none, cameras := some n, facilities := some m }).crowd_score
        = crowd_score_of m
    ∧ (aggregate c { traffic := none, cameras := some n, facilities := some m }).safety_score
        = weighted_safety 75 (cctv_score_of n) (crowd_score_of m)
    ∧ (∀ pr : ProviderResults,
        (aggregate c pr).safety_score = weighted_safety (aggregate c pr).traffic_score
          (aggregate c pr).cctv_score (aggregate c pr).crowd_score)
    ∧ (∀ pr : ProviderResults, (aggregate c pr).candidate = c
        ∧ (aggregate c pr).route_type = RouteType.safest) :=
  ⟨rfl, rfl, rfl, rfl, rfl, rfl, fun _ => rfl, fun _ => ⟨rfl, rfl⟩⟩

/- ### Route selection -/

/-- Modelled from the spec: strict preference between scored routes —
higher safety score first, then lower duration, then lower distance. -/
def better (a b : ScoredRoute) : Bool :=
  decide (b.safety_score < a.safety_score)
  || (decide (a.safety_score = b.safety_score)
      && decide (a.candidate.duration_min < b.candidate.duration_min))
  || (decide (a.safety_score = b.safety_score)
      && decide (a.candidate.duration_min = b.candidate.duration_min)
      && decide (a.candidate.distance_km < b.candidate.distance_km))

/-- One fold step of the selector: replace the current best only when the
new candidate is strictly better, keeping the earlier one on ties. -/
def selStep (acc y : ScoredRoute) : ScoredRoute := if better y acc then y else acc

/-- Modelled from the spec: select the winner among scored candidates —
highest safety score, ties broken by lowest duration, then lowest
distance, then earliest input position.  The backend source,
`backend/server.py`, is not among the checked-in files. -/
def select_best : List ScoredRoute → Option ScoredRoute
  | [] => none
  | x :: xs => some (xs.foldl selStep x)

theorem better_iff {a b : ScoredRoute} : better a b = true ↔
    (b.safety_score < a.safety_score
     ∨ (a.safety_score = b.safety_score
        ∧ a.candidate.duration_min < b.candidate.duration_min)
     ∨ (a.safety_score = b.safety_score
        ∧ a.candidate.duration_min = b.candidate.duration_min
        ∧ a.candidate.distance_km < b.candidate.distance_km)) := by
  simp only [better, Bool.or_eq_true, Bool.and_eq_true, decide_eq_true_eq]
  tauto

theorem better_irrefl (a : ScoredRoute) : better a a = false := by
  rw [Bool.eq_false_iff, Ne, better_iff]
  rintro (h | ⟨-, h⟩ | ⟨-, -, h⟩) <;> exact absurd h (lt_irrefl _)

theorem better_trans {a b c : ScoredRoute} (h1 : better a b = true)
    (h2 : better b c = true) : better a c = true := by
  rw [better_iff] at h1 h2 ⊢
  rcases h1 with h | ⟨e, h⟩ | ⟨e, e2, h⟩ <;>
    rcases h2 with g | ⟨f, g⟩ | ⟨f, f2, g⟩
  · exact Or.inl (lt_trans g h)
  · exact Or.inl (by linarith)
  · exact Or.inl (by linarith)
  · exact Or.inl (by linarith)
  · exact Or.inr (Or.inl ⟨by linarith, by linarith⟩)
  · exact Or.inr (Or.inl ⟨by linarith, by linarith⟩)
  · exact Or.inl (by linarith)
  · exact Or.inr (Or.inl ⟨by linarith, by linarith⟩)
  · exact Or.inr (Or.inr ⟨by linarith, by linarith, by linarith⟩)

theorem better_total (a b : ScoredRoute) :
    better a b = true ∨ better b a = true
    ∨ (a.safety_score = b.safety_score
       ∧ a.candidate.duration_min = b.candidate.duration_min
       ∧ a.candidate.distance_km = b.candidate.distance_km) := by
  rcases lt_trichotomy a.safety_score b.safety_score with h | h | h
  · exact Or.inr (Or.inl (better_iff.mpr (Or.inl h)))
  · rcases lt_trichotomy a.candidate.duration_min b.candidate.duration_min with h2 | h2 | h2
    · exact Or.inl (better_iff.mpr (Or.inr (Or.inl ⟨h, h2⟩)))
    · rcases lt_trichotomy a.candidate.distance_km b.candidate.distance_km with h3 | h3 | h3
      · exact Or.inl (better_iff.mpr (Or.inr (Or.inr ⟨h, h2, h3⟩)))
      · exact Or.inr (Or.inr ⟨h, h2, h3⟩)
      · exact Or.inr (Or.inl (better_iff.mpr (Or.inr (Or.inr ⟨h.symm, h2.symm, h3⟩))))
    · exact Or.inr (Or.inl (better_iff.mpr (Or.inr (Or.inl ⟨h.symm, h2⟩))))
  · exact Or.inl (better_iff.mpr (Or.inl h))

theorem better_congr_left {a b c : ScoredRoute}
    (h : a.safety_score = b.safety_score
      ∧ a.candidate.duration_min = b.candidate.duration_min
      ∧ a.candidate.distance_km = b.candidate.distance_km) :
    better a c = better b c := by
  obtain ⟨h1, h2, h3⟩ := h
  simp only [better, h1, h2, h3]

theorem not_better_trans {a b c : ScoredRoute} (h1 : better a b = false)
    (h2 : better b c = false) : better a c = false := by
  by_contra hcon
  have hac : better a c = true := by
    cases hx : better a c
    · exact absurd hx hcon
    · rfl
  rcases better_total a b with h | h | h
  · rw [h1] at h; exact Bool.false_ne_true h
  · have := better_trans h hac
    rw [h2] at this; exact Bool.false_ne_true this
  · have hnew : better a c = false := (better_congr_left h).trans h2
    rw [hnew] at hac; exact Bool.false_ne_true hac

theorem foldl_selStep_mem (xs : List ScoredRoute) (x : ScoredRoute) :
    xs.foldl selStep x ∈ x :: xs := by
  induction xs generalizing x with
  | nil => simp
  | cons y ys ih =>
    have h := ih (selStep x y)
    by_cases hb : better y x = true
    · have hs : selStep x y = y := by simp [selStep, hb]
      rw [List.foldl_cons, hs]
      rw [hs] at h
      rcases List.mem_cons.mp h with h | h
      · rw [h]; exact List.mem_cons_of_mem _ (List.mem_cons_self _ _)
      · exact List.mem_cons_of_mem _ (List.mem_cons_of_mem _ h)
    · have hs : selStep x y = x := by simp [selStep, hb]
      rw [List.foldl_cons, hs]
      rw [hs] at h
      rcases List.mem_cons.mp h with h | h
      · rw [h]; exact List.mem_cons_self _ _
      · exact List.mem_cons_of_mem _ (List.mem_cons_of_mem _ h)

theorem foldl_selStep_not_beaten (xs : List ScoredRoute) :
    ∀ x y : ScoredRoute, (y = x ∨ y ∈ xs) →
      better y (xs.foldl selStep x) = false := by
  induction xs with
  | nil =>
    intro x y hy
    rcases hy with rfl | h
    · exact better_irrefl y
    · exact absurd h (List.not_mem_nil y)
  | cons z zs ih =>
    intro x y hy
    by_cases hb : better z x = true
    · have hs : selStep x z = z := by simp [selStep, hb]
      rw [List.foldl_cons, hs]
      rcases hy with rfl | hy
      · by_contra hcon
        have hyt : better y (zs.foldl selStep z) = true := by
          cases hx : better y (zs.foldl selStep z)
          · exact absurd hx hcon
          · rfl
        have hz : better z (zs.foldl selStep z) = false := ih z z (Or.inl rfl)
        have := better_trans hb hyt
        rw [hz] at this; exact Bool.false_ne_true this
      · rcases List.mem_cons.mp hy with rfl | hy
        · exact ih y y (Or.inl rfl)
        · exact ih z y (Or.inr hy)
    · have hs : selStep x z = x := by simp [selStep, hb]
      rw [List.foldl_cons, hs]
      rcases hy with rfl | hy
      · exact ih y y (Or.inl rfl)
      · rcases List.mem_cons.mp hy with rfl | hy
        · have hbf : better y x = false := by
            cases hx : better y x
            · rfl
            · exact absurd hx hb
          exact not_better_trans hbf (ih x x (Or.inl rfl))
        · exact ih x y (Or.inr hy)

theorem foldl_selStep_stable (xs : List ScoredRoute) (x : ScoredRoute)
    (h : ∀ y ∈ xs, better y x = false) : xs.foldl selStep x = x := by
  induction xs with
  | nil => rfl
  | cons z zs ih =>
    simp only [List.foldl_cons]
    have hz : selStep x z = x := by
      unfold selStep
      rw [h z (List.mem_cons_self _ _)]
      simp
    rw [hz]
    exact ih fun y hy => h y (List.mem_cons_of_mem _ hy)

/-- Demonstration route used in the selector test vector: a scored route
with the given safety score and duration. -/
def demoRoute (s d : ℚ) : ScoredRoute :=
  { candidate := { geometry := [], distance_km := 0, duration_min := d, provider_route_id := 0 }
    traffic_score := s
    cctv_score := s
    crowd_score := s
    safety_score := s
    route_type := RouteType.safest }

/-- Claim C4: the selector returns, for every non-empty candidate list,
the candidate with the highest safety score, ties broken by lowest
duration, then lowest distance, then earliest input position (stable);
for scores [60, 85, 85] with durations [10, 12, 8] the third candidate
wins. -/
theorem route_selection (x : ScoredRoute) (xs : List ScoredRoute) :
    (∃ r, select_best (x :: xs) = some r ∧ r ∈ x :: xs
      ∧ ∀ y, y ∈ x :: xs → better y r = false)
    ∧ ((∀ y ∈ xs, better y x = false) → select_best (x :: xs) = some x)
    ∧ select_best [demoRoute 60 10, demoRoute 85 12, demoRoute 85 8]
        = some (demoRoute 85 8) := by
  refine ⟨⟨xs.foldl selStep x, rfl, foldl_selStep_mem xs x, ?_⟩, ?_, ?_⟩
  · intro y hy
    rcases List.mem_cons.mp hy with rfl | hy
    · exact foldl_selStep_not_beaten xs y y (Or.inl rfl)
    · exact foldl_selStep_not_beaten xs x y (Or.inr hy)
  · intro h
    rw [show select_best (x :: xs) = some (xs.foldl selStep x) from rfl,
      foldl_selStep_stable xs x h]
  · decide

theorem route_selection_witness :
    select_best [demoRoute 60 10, demoRoute 85 12, demoRoute 85 8]
      = some (demoRoute 85 8) :=
  (route_selection (demoRoute 60 10) [demoRoute 85 12, demoRoute 85 8]).2.2

/- ### Route request with failure policy -/

/-- Error surfaced by the route-computation entry point. -/
inductive RouteError
  | noRouteAvailable
deriving DecidableEq

/-- One fold step of the defensive shortest-route fallback: keep the
candidate with the strictly lower duration, the earlier one on ties. -/
def shorterStep (acc y : RouteCandidate) : RouteCandidate :=
  if y.duration_min < acc.duration_min then y else acc

/-- Modelled from the spec: the candidate with the shortest duration
(earliest on ties). -/
def select_shortest (x : RouteCandidate) (xs : List RouteCandidate) : RouteCandidate :=
  xs.foldl shorterStep x

/-- Modelled from the spec: the defensive fallback result when every
aggregation failed — shortest candidate, route type shortest, all
component scores set to the neutral 50.0 marker. -/
def neutral_shortest (x : RouteCandidate) (xs : List RouteCandidate) : ScoredRoute :=
  { candidate := select_shortest x xs
    traffic_score := 50
    cctv_score := 50
    crowd_score := 50
    safety_score := 50
    route_type := RouteType.shortest }

/-- Modelled from the spec: the route-computation entry point.  An empty
candidate list signals noRouteAvailable; otherwise the per-candidate
aggregations (each possibly failing unexpectedly) are collected, the best
scored route is selected, and if every aggregation failed the shortest
candidate is returned with neutral scores.  The backend source,
`backend/server.py`, is not among the checked-in files. -/
def route_request (cands : List RouteCandidate)
    (agg : RouteCandidate → Option ScoredRoute) : Except RouteError ScoredRoute :=
  match cands with
  | [] => Except.error RouteError.noRouteAvailable
  | x :: xs =>
    match (x :: xs).filterMap agg with
    | [] => Except.ok (neutral_shortest x xs)
    | y :: ys => Except.ok (ys.foldl selStep y)

theorem foldl_shorterStep_mem (xs : List RouteCandidate) (x : RouteCandidate) :
    xs.foldl shorterStep x ∈ x :: xs := by
  induction xs generalizing x with
  | nil => simp
  | cons y ys ih =>
    have h := ih (shorterStep x y)
    by_cases hb : y.duration_min < x.duration_min
    · have hs : shorterStep x y = y := by simp [shorterStep, hb]
      rw [List.foldl_cons, hs]
      rw [hs] at h
      rcases List.mem_cons.mp h with h | h
      · rw [h]; exact List.mem_cons_of_mem _ (List.mem_cons_self _ _)
      · exact List.mem_cons_of_mem _ (List.mem_cons_of_mem _ h)
    · have hs : shorterStep x y = x := by simp [shorterStep, hb]
      rw [List.foldl_cons, hs]
      rw [hs] at h
      rcases List.mem_cons.mp h with h | h
      · rw [h]; exact List.mem_cons_self _ _
      · exact List.mem_cons_of_mem _ (List.mem_cons_of_mem _ h)

theorem foldl_shorterStep_min (xs : List RouteCandidate) :
    ∀ x y : RouteCandidate, (y = x ∨ y ∈ xs) →
      (xs.foldl shorterStep x).duration_min ≤ y.duration_min := by
  induction xs with
  | nil =>
    intro x y hy
    rcases hy with rfl | h
    · exact le_refl _
    · exact absurd h (List.not_mem_nil y)
  | cons z zs ih =>
    intro x y hy
    by_cases hb : z.duration_min < x.duration_min
    · have hs : shorterStep x z = z := by simp [shorterStep, hb]
      rw [List.foldl_cons, hs]
      rcases hy with rfl | hy
      · exact le_trans (ih z z (Or.inl rfl)) (le_of_lt hb)
      · rcases List.mem_cons.mp hy with rfl | hy
        · exact ih y y (Or.inl rfl)
        · exact ih z y (Or.inr hy)
    · have hs : shorterStep x z = x := by simp [shorterStep, hb]
      rw [List.foldl_cons, hs]
      rcases hy with rfl | hy
      · exact ih y y (Or.inl rfl)
      · rcases List.mem_cons.mp hy with rfl | hy
        · exact le_trans (ih x x (Or.inl rfl)) (not_lt.mp hb)
        · exact ih x y (Or.inr hy)

/-- Claim C5: a route request errors with noRouteAvailable exactly when
there are zero candidates; every non-empty candidate list yields a route;
and when every aggregation fails the shortest candidate is returned with
route type shortest and all component scores at the neutral 50.0 marker. -/
theorem route_request_policy (x : RouteCandidate) (xs : List RouteCandidate)
    (agg : RouteCandidate → Option ScoredRoute)
    (hfail : ∀ c ∈ x :: xs, agg c = none) :
    (∀ g l, route_request l g = Except.error RouteError.noRouteAvailable ↔ l = [])
    ∧ (∀ g : RouteCandidate → Option ScoredRoute,
        ∃ r, route_request (x :: xs) g = Except.ok r)
    ∧ route_request (x :: xs) agg = Except.ok (neutral_shortest x xs)
    ∧ (neutral_shortest x xs).route_type = RouteType.shortest
    ∧ (neutral_shortest x xs).traffic_score = 50
    ∧ (neutral_shortest x xs).cctv_score = 50
    ∧ (neutral_shortest x xs).crowd_score = 50
    ∧ (neutral_shortest x xs).candidate ∈ x :: xs
    ∧ (∀ c ∈ x :: xs, (neutral_shortest x xs).candidate.duration_min ≤ c.duration_min) := by
  refine ⟨?_, ?_, ?_, rfl, rfl, rfl, rfl, foldl_shorterStep_mem xs x, ?_⟩
  · intro g l
    constructor
    · intro h
      match l with
      | [] => rfl
      | a :: as =>
        rw [show route_request (a :: as) g =
            (match (a :: as).filterMap g with
             | [] => Except.ok (neutral_shortest a as)
             | y :: ys => Except.ok (ys.foldl selStep y)) from rfl] at h
        cases hf : (a :: as).filterMap g with
        | nil => rw [hf] at h; exact absurd h (by simp)
        | cons y ys => rw [hf] at h; exact absurd h (by simp)
    · rintro rfl; rfl
  · intro g
    cases hf : (x :: xs).filterMap g with
    | nil =>
      exact ⟨neutral_shortest x xs, by
        rw [show route_request (x :: xs) g =
            (match (x :: xs).filterMap g with
             | [] => Except.ok (neutral_shortest x xs)
             | y :: ys => Except.ok (ys.foldl selStep y)) from rfl, hf]⟩
    | cons y ys =>
      exact ⟨ys.foldl selStep y, by
        rw [show route_request (x :: xs) g =
            (match (x :: xs).filterMap g with
             | [] => Except.ok (neutral_shortest x xs)
             | y :: ys => Except.ok (ys.foldl selStep y)) from rfl, hf]⟩
  · have hf : (x :: xs).filterMap agg = [] := List.filterMap_eq_nil_iff.mpr hfail
    rw [show route_request (x :: xs) agg =
        (match (x :: xs).filterMap agg with
         | [] => Except.ok (neutral_shortest x xs)
         | y :: ys => Except.ok (ys.foldl selStep y)) from rfl, hf]
  · intro c hc
    rcases List.mem_cons.mp hc with rfl | hc
    · exact foldl_shorterStep_min xs c c (Or.inl rfl)
    · exact foldl_shorterStep_min xs x c (Or.inr hc)

/-- Demonstration route candidate used to instantiate the failure-policy
theorem. -/
def demoCand : RouteCandidate :=
  { geometry := [], distance_km := 1, duration_min := 2, provider_route_id := 0 }

theorem route_request_policy_witness :
    route_request [demoCand] (fun _ => none) = Except.ok (neutral_shortest demoCand []) :=
  (route_request_policy demoCand [] (fun _ => none) (by simp)).2.2.1

/- ### Presence registry -/

/-- Summary of the active route a user attached to their session. -/
structure RouteSummary where
  destination : String
  distance_km : ℚ
  duration_min : ℚ
deriving DecidableEq

/-- Modelled from the spec: the live server-side record of one connected
user — identity, connection handle, last location, optional route and
last-seen timestamp.  The backend stores these in an in-process dict
keyed by user id (`active_users` in `backend/server.py`, not among the
checked-in files). -/
structure Session where
  user_id : String
  sid : String
  location : Location
  route : Option RouteSummary
  last_seen : ℕ
deriving DecidableEq

/-- Error raised by registry operations referencing an unknown user. -/
inductive RegError
  | unknownUser
deriving DecidableEq

/-- Modelled from the spec: create or replace the session for a user id —
dictionary assignment semantics, last-writer-wins. -/
def upsert (reg : List Session) (uid sid : String) (loc : Location)
    (route : Option RouteSummary) (now : ℕ) : List Session :=
  { user_id := uid, sid := sid, location := loc, route := route, last_seen := now }
    :: reg.filter (fun s => decide (s.user_id ≠ uid))

/-- Modelled from the spec: mutate only location and last_seen of an
existing session, failing with unknownUser when none exists. -/
def update_location (reg : List Session) (uid : String) (loc : Location)
    (now : ℕ) : Except RegError (List Session) :=
  if reg.any (fun s => decide (s.user_id = uid)) then
    Except.ok (reg.map (fun s =>
      if s.user_id = uid then { s with location := loc, last_seen := now } else s))
  else
    Except.error RegError.unknownUser

/-- Modelled from the spec: delete the session of a user id. -/
def remove (reg : List Session) (uid : String) : List Session :=
  reg.filter (fun s => decide (s.user_id ≠ uid))

/-- Modelled from the spec: delete the session holding a connection
handle when the transport disconnects. -/
def remove_by_connection (reg : List Session) (sid : String) : List Session :=
  reg.filter (fun s => decide (s.sid ≠ sid))

/-- Modelled from the spec: drop sessions whose last_seen is older than
the ttl. -/
def sweep (reg : List Session) (now ttl : ℕ) : List Session :=
  reg.filter (fun s => decide (now ≤ s.last_seen + ttl))

/-- The sessions registered under a given user id. -/
def sessionsOf (reg : List Session) (uid : String) : List Session :=
  reg.filter (fun s => decide (s.user_id = uid))

/-- Registry invariant: pairwise-distinct user ids, i.e. at most one live
session per user id. -/
def Wf (reg : List Session) : Prop :=
  reg.Pairwise (fun a b => a.user_id ≠ b.user_id)

/-- States of the presence registry reachable from the empty registry by
its operations. -/
inductive Reachable : List Session → Prop
  | init : Reachable []
  | step_upsert {reg} (uid sid loc route now) :
      Reachable reg → Reachable (upsert reg uid sid loc route now)
  | step_update {reg reg2} (uid loc now) :
      Reachable reg → update_location reg uid loc now = Except.ok reg2 → Reachable reg2
  | step_remove {reg} (uid) : Reachable reg → Reachable (remove reg uid)
  | step_remove_conn {reg} (sid) : Reachable reg → Reachable (remove_by_connection reg sid)
  | step_sweep {reg} (now ttl) : Reachable reg → Reachable (sweep reg now ttl)

theorem wf_upsert (reg : List Session) (uid sid : String) (loc : Location)
    (route : Option RouteSummary) (now : ℕ) (h : Wf reg) :
    Wf (upsert reg uid sid loc route now) := by
  unfold Wf upsert
  refine List.Pairwise.cons ?_ (h.filter _)
  intro t ht
  have := (List.mem_filter.mp ht).2
  simp only [decide_eq_true_eq] at this
  exact fun hcon => this hcon.symm

theorem wf_update (reg reg2 : List Session) (uid : String) (loc : Location)
    (now : ℕ) (h : Wf reg)
    (hok : update_location reg uid loc now = Except.ok reg2) : Wf reg2 := by
  unfold update_location at hok
  by_cases hc : reg.any (fun s => decide (s.user_id = uid)) = true
  · rw [if_pos hc] at hok
    injection hok with hok
    subst hok
    refine List.Pairwise.map _ ?_ h
    intro a b hab
    have e1 : (if a.user_id = uid then { a with location := loc, last_seen := now }
        else a).user_id = a.user_id := by split <;> rfl
    have e2 : (if b.user_id = uid then { b with location := loc, last_seen := now }
        else b).user_id = b.user_id := by split <;> rfl
    show (if a.user_id = uid then { a with location := loc, last_seen := now }
        else a).user_id ≠ (if b.user_id = uid then { b with location := loc, last_seen := now }
        else b).user_id
    rw [e1, e2]
    exact hab
  · rw [if_neg hc] at hok
    exact absurd hok (by simp)

theorem wf_filter (reg : List Session) (p : Session → Bool) (h : Wf reg) :
    Wf (reg.filter p) := h.filter p

theorem reachable_wf {reg : List Session} (h : Reachable reg) : Wf reg := by
  induction h with
  | init => exact List.Pairwise.nil
  | step_upsert uid sid loc route now _ ih => exact wf_upsert _ uid sid loc route now ih
  | step_update uid loc now _ hok ih => exact wf_update _ _ uid loc now ih hok
  | step_remove uid _ ih => exact wf_filter _ _ ih
  | step_remove_conn sid _ ih => exact wf_filter _ _ ih
  | step_sweep now ttl _ ih => exact wf_filter _ _ ih

/-- Build a session record. -/
def mkSession (uid sid : String) (loc : Location) (route : Option RouteSummary)
    (now : ℕ) : Session :=
  { user_id := uid, sid := sid, location := loc, route := route, last_seen := now }

theorem sessionsOf_upsert_upsert (reg : List Session) (uid sidA sidB : String)
    (a b : Location) (ra rb : Option RouteSummary) (t1 t2 : ℕ) :
    sessionsOf (upsert (upsert reg uid sidA a ra t1) uid sidB b rb t2) uid
      = [mkSession uid sidB b rb t2] := by
  unfold mkSession
  unfold sessionsOf upsert
  rw [List.filter_cons_of_pos (by simp)]
  congr 1
  rw [List.filter_eq_nil_iff]
  intro s hs
  have := (List.mem_filter.mp hs).2
  simp only [decide_eq_true_eq] at this ⊢
  exact this

/-- Claim C6: every reachable registry state holds at most one live
session per user id; a second presence announcement for the same user id
replaces the prior session (last-writer-wins on location and route, with
last_seen non-decreasing), so two successive upserts for one user leave
exactly one active session carrying the second location. -/
theorem presence_uniqueness (reg reg0 : List Session) (h : Reachable reg)
    (uid sidA sidB : String) (a b : Location) (ra rb : Option RouteSummary)
    (t1 t2 : ℕ) (hmono : t1 ≤ t2) :
    Wf reg
    ∧ sessionsOf (upsert (upsert reg0 uid sidA a ra t1) uid sidB b rb t2) uid
        = [mkSession uid sidB b rb t2]
    ∧ t1 ≤ (mkSession uid sidB b rb t2).last_seen :=
  ⟨reachable_wf h, sessionsOf_upsert_upsert reg0 uid sidA sidB a b ra rb t1 t2, hmono⟩

/-- Demonstration user id for the registry witnesses. -/
def uidDemo : String := "u1"

theorem presence_uniqueness_witness :
    (1 : ℕ) ≤ 2
    ∧ sessionsOf (upsert (upsert [] uidDemo uidDemo ⟨0, 0⟩ none 1) uidDemo uidDemo ⟨1, 1⟩ none 2) uidDemo
        = [mkSession uidDemo uidDemo ⟨1, 1⟩ none 2] :=
  ⟨by decide,
    (presence_uniqueness [] [] Reachable.init uidDemo uidDemo uidDemo ⟨0, 0⟩ ⟨1, 1⟩
      none none 1 2 (by decide)).2.1⟩

/- ### Proximity matching -/

/-- Modelled from the spec: a derived, non-stored companion match — the
matched user id, its distance from the requester, its location and
route. -/
structure CompanionMatch where
  user_id : String
  distance_km : ℚ
  location : Location
  route : Option RouteSummary
deriving DecidableEq

/-- Result ordering of the matcher: ascending distance, ties broken by
lexical user id order. -/
def matchLE (a b : CompanionMatch) : Prop :=
  a.distance_km < b.distance_km
  ∨ (a.distance_km = b.distance_km ∧ a.user_id ≤ b.user_id)

instance : DecidableRel matchLE := fun a b =>
  inferInstanceAs (Decidable (a.distance_km < b.distance_km
    ∨ (a.distance_km = b.distance_km ∧ a.user_id ≤ b.user_id)))

instance : IsTotal CompanionMatch matchLE where
  total a b := by
    rcases lt_trichotomy a.distance_km b.distance_km with h | h | h
    · exact Or.inl (Or.inl h)
    · rcases le_total a.user_id b.user_id with h2 | h2
      · exact Or.inl (Or.inr ⟨h, h2⟩)
      · exact Or.inr (Or.inr ⟨h.symm, h2⟩)
    · exact Or.inr (Or.inl h)

instance : IsTrans CompanionMatch matchLE where
  trans a b c hab hbc := by
    rcases hab with h | ⟨e, h⟩ <;> rcases hbc with g | ⟨f, g⟩
    · exact Or.inl (lt_trans h g)
    · exact Or.inl (f ▸ h)
    · exact Or.inl (e ▸ g)
    · exact Or.inr ⟨e.trans f, le_trans h g⟩

/-- The companion-match record derived from a session at a given distance
from the requester. -/
def matchOf (d : ℚ) (s : Session) : CompanionMatch :=
  { user_id := s.user_id, distance_km := d, location := s.location, route := s.route }

/-- Modelled from the spec: find nearby companions — over a registry
snapshot, compute the distance from the requester to every other active
session, keep those within max_distance_km, and return them sorted by
ascending distance with ties broken by user id.  The geographic distance
itself (haversine over floats in the backend) is abstracted as the
function argument dist. -/
def find_nearby (reg : List Session) (dist : Location → Location → ℚ)
    (req : Location) (maxd : ℚ) (excl : String) : List CompanionMatch :=
  List.insertionSort matchLE
    ((reg.filter (fun s => decide (s.user_id ≠ excl))).filterMap (fun s =>
      if dist req s.location ≤ maxd then some (matchOf (dist req s.location) s)
      else none))

/-- Claim C7: find_nearby returns exactly the active sessions other than
the requester within max_distance_km, as companion matches sorted
ascending by distance with ties broken by lexical user id order, and an
empty result is the only behaviour when nothing qualifies. -/
theorem companion_matching (reg : List Session) (dist : Location → Location → ℚ)
    (req : Location) (maxd : ℚ) (excl : String) :
    (∀ m : CompanionMatch, m ∈ find_nearby reg dist req maxd excl ↔
      ∃ s, s ∈ reg ∧ s.user_id ≠ excl ∧ dist req s.location ≤ maxd
        ∧ m = matchOf (dist req s.location) s)
    ∧ List.Sorted matchLE (find_nearby reg dist req maxd excl)
    ∧ ((∀ s ∈ reg, s.user_id = excl ∨ maxd < dist req s.location) →
        find_nearby reg dist req maxd excl = []) := by
  have hmem : ∀ m : CompanionMatch, m ∈ find_nearby reg dist req maxd excl ↔
      ∃ s, s ∈ reg ∧ s.user_id ≠ excl ∧ dist req s.location ≤ maxd
        ∧ m = matchOf (dist req s.location) s := by
    intro m
    unfold find_nearby
    rw [(List.perm_insertionSort matchLE _).mem_iff, List.mem_filterMap]
    constructor
    · rintro ⟨s, hs, hsome⟩
      have hf := List.mem_filter.mp hs
      have hne : s.user_id ≠ excl := by
        have := hf.2
        simpa using this
      by_cases hd : dist req s.location ≤ maxd
      · rw [if_pos hd] at hsome
        injection hsome with hsome
        exact ⟨s, hf.1, hne, hd, hsome.symm⟩
      · rw [if_neg hd] at hsome
        exact absurd hsome (by simp)
    · rintro ⟨s, hs, hne, hd, rfl⟩
      refine ⟨s, List.mem_filter.mpr ⟨hs, by simpa using hne⟩, ?_⟩
      rw [if_pos hd]
  refine ⟨hmem, List.sorted_insertionSort matchLE _, ?_⟩
  · intro hnone
    rw [List.eq_nil_iff_forall_not_mem]
    intro m hm
    obtain ⟨s, hs, hne, hd, -⟩ := (hmem m).mp hm
    rcases hnone s hs with h | h
    · exact hne h
    · exact absurd hd (not_le.mpr h)

theorem companion_matching_witness :
    List.Sorted matchLE (find_nearby [] (fun _ _ => 0) ⟨0, 0⟩ 1 uidDemo) :=
  (companion_matching [] (fun _ _ => 0) ⟨0, 0⟩ 1 uidDemo).2.1

/- ### Emergency broadcast -/

/-- One connected transport session: its connection handle and the user
it belongs to. -/
structure Conn where
  sid : String
  user_id : String
deriving DecidableEq

/-- Modelled from the spec: an emergency alert payload, created once per
SOS call and immutable. -/
structure EmergencyAlert where
  id : String
  user_id : String
  location : Location
  message : String
deriving DecidableEq

/-- Modelled from the spec: emergency fan-out — the full alert payload is
delivered to every currently connected session, each delivery attempted
independently, and the count of targeted sessions is returned for
observability.  The backend source, `backend/server.py`, is not among the
checked-in files. -/
def broadcast_emergency (conns : List Conn) (alert : EmergencyAlert) :
    List (Conn × EmergencyAlert) × ℕ :=
  (conns.map (fun c => (c, alert)), conns.length)

theorem length_filter_user_ne (l : List Conn) (sender : String) :
    (l.filter (fun c => decide (c.user_id ≠ sender))).length
      + l.countP (fun c => decide (c.user_id = sender)) = l.length := by
  induction l with
  | nil => rfl
  | cons c cs ih =>
    by_cases h : c.user_id = sender <;>
      simp [List.filter_cons, List.countP_cons, h] at ih ⊢ <;> omega

/-- Claim C8: with N connected sessions, the emergency broadcast attempts
delivery of the full alert payload to every session independently and
with no distance filtering — hence to the N-1 sessions other than the
sender — and the returned observability count equals the total number of
active sessions. -/
theorem emergency_fanout (conns : List Conn) (alert : EmergencyAlert)
    (sender : String)
    (hone : conns.countP (fun c => decide (c.user_id = sender)) = 1) :
    (broadcast_emergency conns alert).1 = conns.map (fun c => (c, alert))
    ∧ (∀ c ∈ conns, (c, alert) ∈ (broadcast_emergency conns alert).1)
    ∧ (broadcast_emergency conns alert).1.length = conns.length
    ∧ (broadcast_emergency conns alert).2 = conns.length
    ∧ ((broadcast_emergency conns alert).1.filter
        (fun p => decide (p.1.user_id ≠ sender))).length = conns.length - 1 := by
  refine ⟨rfl, ?_, List.length_map _ _, rfl, ?_⟩
  · intro c hc
    exact List.mem_map.mpr ⟨c, hc, rfl⟩
  · have hmap : ((conns.map (fun c => (c, alert))).filter
        (fun p => decide (p.1.user_id ≠ sender)))
        = (conns.filter (fun c => decide (c.user_id ≠ sender))).map (fun c => (c, alert)) := by
      rw [List.filter_map]
      rfl
    show ((conns.map (fun c => (c, alert))).filter
        (fun p => decide (p.1.user_id ≠ sender))).length = conns.length - 1
    rw [hmap, List.length_map]
    have h := length_filter_user_ne conns sender
    omega

/-- Demonstration connection list: two users, one connection each. -/
def demoConns : List Conn :=
  [{ sid := "s1", user_id := "alice" }, { sid := "s2", user_id := "bob" }]

/-- Demonstration alert payload. -/
def demoAlert : EmergencyAlert :=
  { id := "sos1", user_id := "alice", location := ⟨0, 0⟩, message := "help" }

/-- Demonstration sender id. -/
def senderDemo : String := "alice"

theorem emergency_fanout_witness :
    (broadcast_emergency demoConns demoAlert).2 = demoConns.length :=
  (emergency_fanout demoConns demoAlert senderDemo (by decide)).2.2.2.1

/- ### Decimal representation of naturals

JavaScript string-concatenates Date.now() in the Quick SOS handler; the
resulting user id embeds the decimal representation of the timestamp.
The development below shows the decimal representation of a natural
number is injective, which settles that distinct timestamps produce
distinct ids. -/

/-- Decimal digit characters of a natural number, most significant
first, as produced by the runtime when printing a natural. -/
def decDigits (n : ℕ) : List Char :=
  if _h : n < 10 then [Nat.digitChar n]
  else decDigits (n / 10) ++ [Nat.digitChar (n % 10)]
termination_by n
decreasing_by exact Nat.div_lt_self (by omega) (by omega)

theorem decDigits_lt (n : ℕ) (h : n < 10) : decDigits n = [Nat.digitChar n] := by
  unfold decDigits
  rw [dif_pos h]

theorem decDigits_ge (n : ℕ) (h : ¬n < 10) :
    decDigits n = decDigits (n / 10) ++ [Nat.digitChar (n % 10)] := by
  conv_lhs => unfold decDigits
  rw [dif_neg h]

theorem toDigitsCore_succ (f n : ℕ) (acc : List Char) :
    Nat.toDigitsCore 10 (f + 1) n acc =
      if n / 10 = 0 then Nat.digitChar (n % 10) :: acc
      else Nat.toDigitsCore 10 f (n / 10) (Nat.digitChar (n % 10) :: acc) := rfl

theorem toDigitsCore_eq_decDigits (f : ℕ) :
    ∀ (n : ℕ) (acc : List Char), n < f →
      Nat.toDigitsCore 10 f n acc = decDigits n ++ acc := by
  induction f with
  | zero => intro n acc h; exact absurd h (Nat.not_lt_zero n)
  | succ f ih =>
    intro n acc h
    rw [toDigitsCore_succ]
    by_cases h0 : n / 10 = 0
    · have hn : n < 10 := by omega
      rw [if_pos h0, decDigits_lt n hn, Nat.mod_eq_of_lt hn]
      rfl
    · have hge : ¬n < 10 := by omega
      have hlt : n / 10 < f := by omega
      rw [if_neg h0, ih (n / 10) (Nat.digitChar (n % 10) :: acc) hlt,
        decDigits_ge n hge, List.append_assoc]
      rfl

theorem toDigits_eq_decDigits (n : ℕ) : Nat.toDigits 10 n = decDigits n := by
  rw [show Nat.toDigits 10 n = Nat.toDigitsCore 10 (n + 1) n [] from rfl,
    toDigitsCore_eq_decDigits (n + 1) n [] (Nat.lt_succ_self n), List.append_nil]

/-- Numeric value of a decimal digit character. -/
def digitVal (c : Char) : ℕ := c.toNat - 48

theorem digitVal_digitChar (m : ℕ) (h : m < 10) :
    digitVal (Nat.digitChar m) = m := by
  interval_cases m <;> decide

theorem foldl_decDigits (n : ℕ) :
    ∀ a : ℕ, (decDigits n).foldl (fun x c => 10 * x + digitVal c) a
      = a * 10 ^ (decDigits n).length + n := by
  induction n using Nat.strong_induction_on with
  | _ n ih =>
    intro a
    by_cases h : n < 10
    · rw [decDigits_lt n h]
      simp only [List.foldl_cons, List.foldl_nil, List.length_cons,
        List.length_nil, digitVal_digitChar n h, pow_one, zero_add]
      omega
    · rw [decDigits_ge n h, List.foldl_append]
      have hlt : n / 10 < n := Nat.div_lt_self (by omega) (by omega)
      rw [ih (n / 10) hlt a]
      simp only [List.foldl_cons, List.foldl_nil, List.length_append,
        List.length_cons, List.length_nil, digitVal_digitChar (n % 10) (by omega)]
      have hqr : 10 * (n / 10) + n % 10 = n := Nat.div_add_mod n 10
      calc 10 * (a * 10 ^ (decDigits (n / 10)).length + n / 10) + n % 10
          = a * (10 ^ (decDigits (n / 10)).length * 10) + (10 * (n / 10) + n % 10) := by
            ring
        _ = a * 10 ^ ((decDigits (n / 10)).length + (0 + 1)) + n := by
            rw [hqr, pow_succ]

theorem decDigits_inj {n m : ℕ} (h : decDigits n = decDigits m) : n = m := by
  have h1 := foldl_decDigits n 0
  have h2 := foldl_decDigits m 0
  rw [h] at h1
  rw [h1] at h2
  omega

theorem nat_repr_inj {n m : ℕ} (h : Nat.repr n = Nat.repr m) : n = m := by
  have hd : Nat.toDigits 10 n = Nat.toDigits 10 m := congrArg String.data h
  rw [toDigits_eq_decDigits, toDigits_eq_decDigits] at hd
  exact decDigits_inj hd

/- ### Frontend: Quick SOS and companions panel -/

/-- Payload POSTed to the SOS endpoint. -/
structure SOSRequest where
  user_id : String
  location : Location
  message : String
deriving DecidableEq

/-- The message sent by the Quick SOS button
(app/components/EmergencyPanel.jsx). -/
def sosMessage : String := "Quick SOS Alert!"

/-- The user id the Quick SOS handler generates:
the literal prefix followed by Date.now() in decimal
(app/components/EmergencyPanel.jsx, handleQuickSOS). -/
def quickSOSUserId (nowMs : ℕ) : String := "user_" ++ Nat.repr nowMs

/-- The Quick SOS handler (app/components/EmergencyPanel.jsx): with no
location available it only shows an error and sends nothing; otherwise it
POSTs the generated user id, the location and the fixed message. -/
def handleQuickSOS (userLocation : Option Location) (nowMs : ℕ) : Option SOSRequest :=
  match userLocation with
  | none => none
  | some loc => some { user_id := quickSOSUserId nowMs, location := loc, message := sosMessage }

/-- The constant user id of the companions panel
(CompanionsPanel.jsx, useState). -/
def companionsPanelUserId : String := "demo_user"

/-- Modelled from the spec: profile enrichment of an SOS alert — look up
the stored profile by user id (the backend profile store and its lookup
live in `backend/server.py`, not among the checked-in files). -/
def lookupProfile (store : List (String × String)) (uid : String) : Option String :=
  (store.find? (fun p => decide (p.1 = uid))).map Prod.snd

theorem quickSOSUserId_inj {t1 t2 : ℕ}
    (h : quickSOSUserId t1 = quickSOSUserId t2) : t1 = t2 := by
  unfold quickSOSUserId at h
  have hd := congrArg String.data h
  simp only [String.data_append] at hd
  have hl := List.append_cancel_left hd
  exact nat_repr_inj (String.ext hl)

theorem quickSOSUserId_ne_demo (t : ℕ) :
    quickSOSUserId t ≠ companionsPanelUserId := by
  intro h
  have hd := congrArg String.data h
  simp only [quickSOSUserId, companionsPanelUserId, String.data_append] at hd
  simp at hd

/-- Claim C9: every Quick SOS press posts an alert whose user id is the
literal prefix followed by the current epoch-millisecond timestamp in
decimal, so presses at distinct milliseconds carry distinct ids, no
Quick SOS alert ever carries the fixed presence id demo_user, and
profile enrichment keyed by that fixed id can never find the registered
profile. -/
theorem quick_sos_identity (t1 t2 : ℕ) (loc : Location) (ht : t1 ≠ t2)
    (store : List (String × String))
    (hstore : ∀ p ∈ store, p.1 = companionsPanelUserId) :
    handleQuickSOS (some loc) t1
      = some { user_id := quickSOSUserId t1, location := loc, message := sosMessage }
    ∧ handleQuickSOS none t1 = none
    ∧ quickSOSUserId t1 = "user_" ++ Nat.repr t1
    ∧ quickSOSUserId t1 ≠ quickSOSUserId t2
    ∧ quickSOSUserId t1 ≠ companionsPanelUserId
    ∧ lookupProfile store (quickSOSUserId t1) = none := by
  refine ⟨rfl, rfl, rfl, fun h => ht (quickSOSUserId_inj h), quickSOSUserId_ne_demo t1, ?_⟩
  unfold lookupProfile
  rw [List.find?_eq_none.mpr]
  · rfl
  · intro p hp
    simp only [decide_eq_true_eq]
    rw [hstore p hp]
    exact fun hcon => quickSOSUserId_ne_demo t1 hcon.symm

/-- Demonstration stored profile value. -/
def profileDemo : String := "stored profile"

theorem quick_sos_identity_witness :
    quickSOSUserId 1 ≠ quickSOSUserId 2
    ∧ lookupProfile [(companionsPanelUserId, profileDemo)] (quickSOSUserId 1) = none :=
  ⟨(quick_sos_identity 1 2 ⟨0, 0⟩ (by decide) [(companionsPanelUserId, profileDemo)]
      (by simp)).2.2.2.1,
    (quick_sos_identity 1 2 ⟨0, 0⟩ (by decide) [(companionsPanelUserId, profileDemo)]
      (by simp)).2.2.2.2.2⟩

/-- Payload of the user_presence event emitted by the companions panel
(CompanionsPanel.jsx): the constant user id, the current location, and no
route. -/
structure PresencePayload where
  user_id : String
  location : Location
  route : Option RouteSummary
deriving DecidableEq

/-- The user_presence message the companions panel emits
(CompanionsPanel.jsx, useEffect). -/
def presenceMessage (loc : Location) : PresencePayload :=
  { user_id := companionsPanelUserId, location := loc, route := none }

/-- Payload of the find_companions event emitted by the companions panel
(CompanionsPanel.jsx, searchNearby). -/
structure FindCompanionsPayload where
  user_id : String
  location : Location
  max_distance_km : ℚ
deriving DecidableEq

/-- The find_companions message the companions panel emits: the constant
user id, the current location, and the fixed 2.0 km radius
(CompanionsPanel.jsx, searchNearby). -/
def findCompanionsMessage (loc : Location) : FindCompanionsPayload :=
  { user_id := companionsPanelUserId, location := loc, max_distance_km := 2 }

theorem mem_upsert_user (reg : List Session) (uid sid : String) (loc : Location)
    (r : Option RouteSummary) (now : ℕ) (h : ∀ s ∈ reg, s.user_id = uid) :
    ∀ s ∈ upsert reg uid sid loc r now, s.user_id = uid := by
  intro s hs
  unfold upsert at hs
  rcases List.mem_cons.mp hs with rfl | hs
  · rfl
  · exact h s (List.mem_filter.mp hs).1

/-- Claim C10: every presence announcement and every companion search the
companions panel issues carries the constant user id demo_user, the
search always uses a 2.0 km radius, two clients running this frontend
therefore share one identity — each announcement replacing the previous
session — and a companion search from such a client never returns
another. -/
theorem demo_user_identity (loc locA locB : Location) (reg : List Session)
    (sidA sidB : String) (t1 t2 : ℕ) (dist : Location → Location → ℚ)
    (hreg : ∀ s ∈ reg, s.user_id = companionsPanelUserId) :
    (presenceMessage loc).user_id = companionsPanelUserId
    ∧ (presenceMessage loc).route = none
    ∧ (findCompanionsMessage loc).user_id = companionsPanelUserId
    ∧ (findCompanionsMessage loc).max_distance_km = 2
    ∧ sessionsOf (upsert (upsert reg companionsPanelUserId sidA locA none t1)
        companionsPanelUserId sidB locB none t2) companionsPanelUserId
        = [mkSession companionsPanelUserId sidB locB none t2]
    ∧ find_nearby (upsert (upsert reg companionsPanelUserId sidA locA none t1)
        companionsPanelUserId sidB locB none t2) dist loc
        (findCompanionsMessage loc).max_distance_km companionsPanelUserId = [] := by
  refine ⟨rfl, rfl, rfl, rfl,
    sessionsOf_upsert_upsert reg companionsPanelUserId sidA sidB locA locB none none t1 t2, ?_⟩
  have hall : ∀ s ∈ upsert (upsert reg companionsPanelUserId sidA locA none t1)
      companionsPanelUserId sidB locB none t2, s.user_id = companionsPanelUserId :=
    mem_upsert_user _ _ sidB locB none t2
      (mem_upsert_user reg _ sidA locA none t1 hreg)
  have hfilter : (upsert (upsert reg companionsPanelUserId sidA locA none t1)
      companionsPanelUserId sidB locB none t2).filter
      (fun s => decide (s.user_id ≠ companionsPanelUserId)) = [] := by
    rw [List.filter_eq_nil_iff]
    intro s hs
    simp [hall s hs]
  unfold find_nearby
  rw [hfilter]
  rfl

theorem demo_user_identity_witness :
    find_nearby (upsert (upsert [] companionsPanelUserId uidDemo ⟨0, 0⟩ none 1)
        companionsPanelUserId uidDemo ⟨1, 1⟩ none 2) (fun _ _ => 0) ⟨0, 0⟩
        (findCompanionsMessage ⟨0, 0⟩).max_distance_km companionsPanelUserId = [] :=
  (demo_user_identity ⟨0, 0⟩ ⟨0, 0⟩ ⟨1, 1⟩ [] uidDemo uidDemo 1 2 (fun _ _ => 0)
    (by simp)).2.2.2.2.2

end SafeRoute
